import Mathlib

/-!
Verification of the FreeFileSync concurrent progress-and-error reporting core
(`FreeFileSync/Source/base/status_handler_impl.h`) via a shallow embedding.

The embedding mirrors the source:
* `Counters`, `updateDataProcessed`, `updateDataTotal`, `reportStats` embed the
  lock-free stat accumulator of `AsyncCallback` (atomic `int`/`int64_t` deltas
  are modelled as `ℤ`; wrap-around is irrelevant at the magnitudes the claims
  use and is not modelled).
* `reportDelta` / `reporterExit` embed `ItemStatReporter::reportDelta` and the
  destructor; the external phase callback is modelled as the additive
  accumulator `CbStats`.
* `tryReportingErrorGo` embeds `tryReportingError` (fuel models the unbounded
  retry loop).
* `getCurrentStatus` and the registry types embed `AsyncCallback`'s status
  registry.
* `ChStep`/`ChReach` embed the error-request rendezvous of
  `AsyncCallback::reportError` / `waitUntilDone` as a labelled transition
  system.
* `percentUpdateStatus` embeds `PercentStatReporter::updateStatus`.
* `MassExec` embeds the observable behaviour of `massParallelExecute`.
-/

namespace FFSpec

/-! ### Stat accumulator (`AsyncCallback` atomic deltas) -/

/-- The four pending-delta counters of `AsyncCallback`
(`itemsDeltaProcessed_`, `bytesDeltaProcessed_`, `itemsDeltaTotal_`,
`bytesDeltaTotal_`). -/
structure Counters where
  itemsDeltaProcessed : ℤ
  bytesDeltaProcessed : ℤ
  itemsDeltaTotal : ℤ
  bytesDeltaTotal : ℤ
deriving DecidableEq, Repr

/-- All four pending counters zero (the initial state). -/
def Counters.zero : Counters := ⟨0, 0, 0, 0⟩

/-- `AsyncCallback::updateDataProcessed`: atomically add the deltas. -/
def updateDataProcessed (c : Counters) (itemsDelta bytesDelta : ℤ) : Counters :=
  { c with itemsDeltaProcessed := c.itemsDeltaProcessed + itemsDelta,
           bytesDeltaProcessed := c.bytesDeltaProcessed + bytesDelta }

/-- `AsyncCallback::updateDataTotal`: atomically add the deltas. -/
def updateDataTotal (c : Counters) (itemsDelta bytesDelta : ℤ) : Counters :=
  { c with itemsDeltaTotal := c.itemsDeltaTotal + itemsDelta,
           bytesDeltaTotal := c.bytesDeltaTotal + bytesDelta }

/-- One stat call forwarded to the external `PhaseCallback` by `reportStats`. -/
inductive StatCall where
  | processed (items bytes : ℤ)
  | total (items bytes : ℤ)
deriving DecidableEq, Repr

/-- One worker-side posting to the accumulator. -/
inductive WorkerPost where
  | processed (items bytes : ℤ)
  | total (items bytes : ℤ)
deriving DecidableEq, Repr

/-- Apply one worker post to the counters. -/
def applyPost (c : Counters) (p : WorkerPost) : Counters :=
  match p with
  | .processed i b => updateDataProcessed c i b
  | .total i b => updateDataTotal c i b

/-- Processed-items contribution of a worker post. -/
def WorkerPost.processedItems : WorkerPost → ℤ
  | .processed i _ => i
  | .total _ _ => 0

/-- Processed-bytes contribution of a worker post. -/
def WorkerPost.processedBytes : WorkerPost → ℤ
  | .processed _ b => b
  | .total _ _ => 0

/-- Total-items contribution of a worker post. -/
def WorkerPost.totalItems : WorkerPost → ℤ
  | .processed _ _ => 0
  | .total i _ => i

/-- Total-bytes contribution of a worker post. -/
def WorkerPost.totalBytes : WorkerPost → ℤ
  | .processed _ _ => 0
  | .total _ b => b

/-- Processed-items amount of an external stat call. -/
def StatCall.processedItems : StatCall → ℤ
  | .processed i _ => i
  | .total _ _ => 0

/-- Processed-bytes amount of an external stat call. -/
def StatCall.processedBytes : StatCall → ℤ
  | .processed _ b => b
  | .total _ _ => 0

/-- Total-items amount of an external stat call. -/
def StatCall.totalItems : StatCall → ℤ
  | .processed _ _ => 0
  | .total i _ => i

/-- Total-bytes amount of an external stat call. -/
def StatCall.totalBytes : StatCall → ℤ
  | .processed _ _ => 0
  | .total _ b => b

/-- `AsyncCallback::reportStats` (main thread): read each pending pair, and if
nonzero add its negation back (not a store of zero) and forward the original
delta to the external callback.  Returns the counters after the drain and the
external calls made, in order. -/
def reportStats (c : Counters) : Counters × List StatCall :=
  let deltaProcessed := (c.itemsDeltaProcessed, c.bytesDeltaProcessed)
  let step1 : Counters × List StatCall :=
    if deltaProcessed.1 ≠ 0 ∨ deltaProcessed.2 ≠ 0 then
      (updateDataProcessed c (-deltaProcessed.1) (-deltaProcessed.2),
       [StatCall.processed deltaProcessed.1 deltaProcessed.2])
    else (c, [])
  let deltaTotal := (step1.1.itemsDeltaTotal, step1.1.bytesDeltaTotal)
  let step2 : Counters × List StatCall :=
    if deltaTotal.1 ≠ 0 ∨ deltaTotal.2 ≠ 0 then
      (updateDataTotal step1.1 (-deltaTotal.1) (-deltaTotal.2),
       [StatCall.total deltaTotal.1 deltaTotal.2])
    else (step1.1, [])
  (step2.1, step1.2 ++ step2.2)

lemma foldl_itemsDeltaProcessed (ps : List WorkerPost) (c : Counters) :
    (ps.foldl applyPost c).itemsDeltaProcessed
      = c.itemsDeltaProcessed + (ps.map WorkerPost.processedItems).sum := by
  induction ps generalizing c with
  | nil => simp
  | cons p ps ih =>
    cases p <;>
      simp [applyPost, updateDataProcessed, updateDataTotal,
        WorkerPost.processedItems, ih] <;> ring

lemma foldl_bytesDeltaProcessed (ps : List WorkerPost) (c : Counters) :
    (ps.foldl applyPost c).bytesDeltaProcessed
      = c.bytesDeltaProcessed + (ps.map WorkerPost.processedBytes).sum := by
  induction ps generalizing c with
  | nil => simp
  | cons p ps ih =>
    cases p <;>
      simp [applyPost, updateDataProcessed, updateDataTotal,
        WorkerPost.processedBytes, ih] <;> ring

lemma foldl_itemsDeltaTotal (ps : List WorkerPost) (c : Counters) :
    (ps.foldl applyPost c).itemsDeltaTotal
      = c.itemsDeltaTotal + (ps.map WorkerPost.totalItems).sum := by
  induction ps generalizing c with
  | nil => simp
  | cons p ps ih =>
    cases p <;>
      simp [applyPost, updateDataProcessed, updateDataTotal,
        WorkerPost.totalItems, ih] <;> ring

lemma foldl_bytesDeltaTotal (ps : List WorkerPost) (c : Counters) :
    (ps.foldl applyPost c).bytesDeltaTotal
      = c.bytesDeltaTotal + (ps.map WorkerPost.totalBytes).sum := by
  induction ps generalizing c with
  | nil => simp
  | cons p ps ih =>
    cases p <;>
      simp [applyPost, updateDataProcessed, updateDataTotal,
        WorkerPost.totalBytes, ih] <;> ring

lemma foldl_applyPost (ps : List WorkerPost) (c : Counters) :
    (ps.foldl applyPost c).itemsDeltaProcessed
        = c.itemsDeltaProcessed + (ps.map WorkerPost.processedItems).sum
    ∧ (ps.foldl applyPost c).bytesDeltaProcessed
        = c.bytesDeltaProcessed + (ps.map WorkerPost.processedBytes).sum
    ∧ (ps.foldl applyPost c).itemsDeltaTotal
        = c.itemsDeltaTotal + (ps.map WorkerPost.totalItems).sum
    ∧ (ps.foldl applyPost c).bytesDeltaTotal
        = c.bytesDeltaTotal + (ps.map WorkerPost.totalBytes).sum :=
  ⟨foldl_itemsDeltaProcessed ps c, foldl_bytesDeltaProcessed ps c,
   foldl_itemsDeltaTotal ps c, foldl_bytesDeltaTotal ps c⟩

lemma reportStats_drains (c : Counters) :
    (reportStats c).1 = Counters.zero ∧
    ((reportStats c).2.map StatCall.processedItems).sum = c.itemsDeltaProcessed ∧
    ((reportStats c).2.map StatCall.processedBytes).sum = c.bytesDeltaProcessed ∧
    ((reportStats c).2.map StatCall.totalItems).sum = c.itemsDeltaTotal ∧
    ((reportStats c).2.map StatCall.totalBytes).sum = c.bytesDeltaTotal := by
  obtain ⟨ip, bp, it, bt⟩ := c
  unfold reportStats
  dsimp only
  by_cases hp : ip ≠ 0 ∨ bp ≠ 0 <;>
    by_cases ht : it ≠ 0 ∨ bt ≠ 0 <;>
      simp_all [updateDataProcessed, updateDataTotal, Counters.zero,
        StatCall.processedItems, StatCall.processedBytes,
        StatCall.totalItems, StatCall.totalBytes, not_or]

/-- C1 (counter drain conservation): for every sequence of worker-side
`updateDataProcessed`/`updateDataTotal` posts followed by a main-thread
`reportStats` drain, the deltas forwarded to the external callback equal
exactly the sums posted by the workers, and all four pending counters read
zero afterwards; the drain is a read followed by adding the negation, so
increments racing with the drain are preserved as the new pending value (never
lost, as a store of zero would); concretely `updateDataProcessed(3, 100)` then
`updateDataProcessed(2, 50)` followed by one drain yields exactly one external
`updateDataProcessed(5, 150)`. -/
theorem counterDrainConservation :
    ∀ ps : List WorkerPost,
      (((reportStats (ps.foldl applyPost Counters.zero)).2.map
          StatCall.processedItems).sum = (ps.map WorkerPost.processedItems).sum
      ∧ ((reportStats (ps.foldl applyPost Counters.zero)).2.map
          StatCall.processedBytes).sum = (ps.map WorkerPost.processedBytes).sum
      ∧ ((reportStats (ps.foldl applyPost Counters.zero)).2.map
          StatCall.totalItems).sum = (ps.map WorkerPost.totalItems).sum
      ∧ ((reportStats (ps.foldl applyPost Counters.zero)).2.map
          StatCall.totalBytes).sum = (ps.map WorkerPost.totalBytes).sum)
      ∧ (reportStats (ps.foldl applyPost Counters.zero)).1 = Counters.zero
      ∧ (∀ (c0 : Counters) (race : List WorkerPost),
          (updateDataTotal
            (updateDataProcessed (race.foldl applyPost c0)
              (-c0.itemsDeltaProcessed) (-c0.bytesDeltaProcessed))
            (-c0.itemsDeltaTotal) (-c0.bytesDeltaTotal)).itemsDeltaProcessed
              = (race.map WorkerPost.processedItems).sum
          ∧ (updateDataTotal
            (updateDataProcessed (race.foldl applyPost c0)
              (-c0.itemsDeltaProcessed) (-c0.bytesDeltaProcessed))
            (-c0.itemsDeltaTotal) (-c0.bytesDeltaTotal)).bytesDeltaProcessed
              = (race.map WorkerPost.processedBytes).sum
          ∧ (updateDataTotal
            (updateDataProcessed (race.foldl applyPost c0)
              (-c0.itemsDeltaProcessed) (-c0.bytesDeltaProcessed))
            (-c0.itemsDeltaTotal) (-c0.bytesDeltaTotal)).itemsDeltaTotal
              = (race.map WorkerPost.totalItems).sum
          ∧ (updateDataTotal
            (updateDataProcessed (race.foldl applyPost c0)
              (-c0.itemsDeltaProcessed) (-c0.bytesDeltaProcessed))
            (-c0.itemsDeltaTotal) (-c0.bytesDeltaTotal)).bytesDeltaTotal
              = (race.map WorkerPost.totalBytes).sum)
      ∧ reportStats (([WorkerPost.processed 3 100,
            WorkerPost.processed 2 50].foldl applyPost Counters.zero))
          = (Counters.zero, [StatCall.processed 5 150]) := by
  intro ps
  obtain ⟨h1, h2, h3, h4⟩ := foldl_applyPost ps Counters.zero
  obtain ⟨hz, hp1, hp2, hp3, hp4⟩ :=
    reportStats_drains (ps.foldl applyPost Counters.zero)
  refine ⟨⟨?_, ?_, ?_, ?_⟩, hz, ?_, ?_⟩
  · rw [hp1, h1]; simp [Counters.zero]
  · rw [hp2, h2]; simp [Counters.zero]
  · rw [hp3, h3]; simp [Counters.zero]
  · rw [hp4, h4]; simp [Counters.zero]
  · intro c0 race
    obtain ⟨g1, g2, g3, g4⟩ := foldl_applyPost race c0
    refine ⟨?_, ?_, ?_, ?_⟩ <;>
      simp [updateDataProcessed, updateDataTotal, g1, g2, g3, g4] <;> ring
  · decide

/-! ### Item stat reporter (`ItemStatReporter`) -/

/-- Additive accumulator modelling the external callback sums seen so far
(`cb_.updateDataProcessed` / `cb_.updateDataTotal` invocations are additive
and non-failing). -/
structure CbStats where
  processedItems : ℤ
  processedBytes : ℤ
  totalItems : ℤ
  totalBytes : ℤ
deriving DecidableEq, Repr

/-- The callback accumulator before any call. -/
def CbStats.zero : CbStats := ⟨0, 0, 0, 0⟩

/-- Effect of `cb.updateDataProcessed(i, b)` on the accumulator. -/
def cbUpdateDataProcessed (cb : CbStats) (items bytes : ℤ) : CbStats :=
  { cb with processedItems := cb.processedItems + items,
            processedBytes := cb.processedBytes + bytes }

/-- Effect of `cb.updateDataTotal(i, b)` on the accumulator. -/
def cbUpdateDataTotal (cb : CbStats) (items bytes : ℤ) : CbStats :=
  { cb with totalItems := cb.totalItems + items,
            totalBytes := cb.totalBytes + bytes }

/-- The mutable fields `itemsReported_`, `bytesReported_` of
`ItemStatReporter`. -/
structure ReporterState where
  itemsReported : ℤ
  bytesReported : ℤ
deriving DecidableEq, Repr

/-- `ItemStatReporter::reportDelta`: forward the deltas to
`updateDataProcessed`, accumulate them, and clamp each accumulator to its
expected value, reporting the excess through `updateDataTotal`. -/
def reportDelta (itemsExpected bytesExpected : ℤ)
    (s : ReporterState × CbStats) (d : ℤ × ℤ) : ReporterState × CbStats :=
  let cb0 := cbUpdateDataProcessed s.2 d.1 d.2
  let ir0 := s.1.itemsReported + d.1
  let br0 := s.1.bytesReported + d.2
  let step1 : ℤ × CbStats :=
    if itemsExpected < ir0 then
      (itemsExpected, cbUpdateDataTotal cb0 (ir0 - itemsExpected) 0)
    else (ir0, cb0)
  let step2 : ℤ × CbStats :=
    if bytesExpected < br0 then
      (bytesExpected, cbUpdateDataTotal step1.2 0 (br0 - bytesExpected))
    else (br0, step1.2)
  (⟨step1.1, step2.1⟩, step2.2)

/-- A whole sequence of `reportDelta` calls starting from a freshly
constructed reporter and an untouched callback accumulator. -/
def runReportDeltas (itemsExpected bytesExpected : ℤ)
    (ds : List (ℤ × ℤ)) : ReporterState × CbStats :=
  ds.foldl (reportDelta itemsExpected bytesExpected) (⟨0, 0⟩, CbStats.zero)

/-- `ItemStatReporter::~ItemStatReporter`: on abnormal scope exit
(`scopeFail = true`) add the reported amounts to the total; on normal exit
correct the total by `reported - expected`. -/
def reporterExit (itemsExpected bytesExpected : ℤ) (scopeFail : Bool)
    (s : ReporterState × CbStats) : CbStats :=
  if scopeFail then
    cbUpdateDataTotal s.2 s.1.itemsReported s.1.bytesReported
  else
    cbUpdateDataTotal s.2 (s.1.itemsReported - itemsExpected)
      (s.1.bytesReported - bytesExpected)

/-- Sum of the item components of a delta sequence. -/
def sumItems (ds : List (ℤ × ℤ)) : ℤ := (ds.map Prod.fst).sum

/-- Sum of the byte components of a delta sequence. -/
def sumBytes (ds : List (ℤ × ℤ)) : ℤ := (ds.map Prod.snd).sum

lemma reportDelta_conserves (ie be : ℤ) (s : ReporterState × CbStats)
    (d : ℤ × ℤ) :
    ((reportDelta ie be s d).1.itemsReported
        + (reportDelta ie be s d).2.totalItems
      = s.1.itemsReported + s.2.totalItems + d.1)
    ∧ ((reportDelta ie be s d).1.bytesReported
        + (reportDelta ie be s d).2.totalBytes
      = s.1.bytesReported + s.2.totalBytes + d.2)
    ∧ ((reportDelta ie be s d).2.processedItems
      = s.2.processedItems + d.1)
    ∧ ((reportDelta ie be s d).2.processedBytes
      = s.2.processedBytes + d.2) := by
  unfold reportDelta
  by_cases h1 : ie < s.1.itemsReported + d.1 <;>
    by_cases h2 : be < s.1.bytesReported + d.2 <;>
      simp [h1, h2, cbUpdateDataProcessed, cbUpdateDataTotal] <;>
        omega

lemma foldl_reportDelta_conserves (ie be : ℤ) (ds : List (ℤ × ℤ))
    (s : ReporterState × CbStats) :
    ((ds.foldl (reportDelta ie be) s).1.itemsReported
        + (ds.foldl (reportDelta ie be) s).2.totalItems
      = s.1.itemsReported + s.2.totalItems + sumItems ds)
    ∧ ((ds.foldl (reportDelta ie be) s).1.bytesReported
        + (ds.foldl (reportDelta ie be) s).2.totalBytes
      = s.1.bytesReported + s.2.totalBytes + sumBytes ds)
    ∧ ((ds.foldl (reportDelta ie be) s).2.processedItems
      = s.2.processedItems + sumItems ds)
    ∧ ((ds.foldl (reportDelta ie be) s).2.processedBytes
      = s.2.processedBytes + sumBytes ds) := by
  induction ds generalizing s with
  | nil => simp [sumItems, sumBytes]
  | cons d ds ih =>
    obtain ⟨i1, i2, i3, i4⟩ := ih (reportDelta ie be s d)
    obtain ⟨r1, r2, r3, r4⟩ := reportDelta_conserves ie be s d
    refine ⟨?_, ?_, ?_, ?_⟩ <;>
      simp only [List.foldl_cons, sumItems, sumBytes, List.map_cons,
        List.sum_cons] at * <;>
      omega

lemma reportDelta_clamped (ie be : ℤ) (s : ReporterState × CbStats)
    (d : ℤ × ℤ) :
    (reportDelta ie be s d).1.itemsReported ≤ ie
    ∧ (reportDelta ie be s d).1.bytesReported ≤ be := by
  unfold reportDelta
  by_cases h1 : ie < s.1.itemsReported + d.1 <;>
    by_cases h2 : be < s.1.bytesReported + d.2 <;>
      simp [h1, h2] <;> omega

lemma foldl_reportDelta_clamped (ie be : ℤ) (ds : List (ℤ × ℤ))
    (s : ReporterState × CbStats)
    (h : s.1.itemsReported ≤ ie ∧ s.1.bytesReported ≤ be) :
    (ds.foldl (reportDelta ie be) s).1.itemsReported ≤ ie
    ∧ (ds.foldl (reportDelta ie be) s).1.bytesReported ≤ be := by
  induction ds generalizing s with
  | nil => simpa using h
  | cons d ds ih =>
    exact ih (reportDelta ie be s d) (reportDelta_clamped ie be s d)

/-- C2 counterexample: with `bytesExpected = 100` (`itemsExpected = 1`) and a
single `reportDelta(1, 120)` followed by a normal scope exit, the callback has
received `+20` total bytes during reporting, the exit correction adds `0`, so
the reporter's net addition to the external total is `20` bytes — not `0` and
not the claimed `bytesExpected = 100` — while net processed is `120`. -/
theorem normalReconciliationCex :
    (runReportDeltas 1 100 [(1, 120)]).2.totalBytes = 20
    ∧ (reporterExit 1 100 false (runReportDeltas 1 100 [(1, 120)])).totalBytes
        = 20
    ∧ (reporterExit 1 100 false (runReportDeltas 1 100 [(1, 120)])).processedBytes
        = 120
    ∧ ((20 : ℤ) ≠ 0)
    ∧ ((20 : ℤ) ≠ 100) := by
  refine ⟨by decide, by decide, by decide, by decide, by decide⟩

/-- C2 (amended): for every `ItemStatReporter` with expected `(ie, be)` whose
`reportDelta` calls report a cumulative `(i, b)` before the scope exits
normally, the net amount the reporter adds to the external total — summing the
overshoot additions made during `reportDelta` and the correction made at scope
exit — is `i - ie` items and `b - be` bytes (so with the planned `(ie, be)`
already accounted in the external total, the total ends up accounting exactly
the reported `(i, b)`); net processed is `(i, b)`.  In particular with
`bytesExpected = 100` and `120` bytes reported, `+20` is added to total during
reporting, the normal scope-exit correction adds `0`, and the net total change
is `+20` (not `0`) while net processed is `120`. -/
theorem normalExitReconciliationAmended :
    ∀ (ie be : ℤ) (ds : List (ℤ × ℤ)),
      (reporterExit ie be false (runReportDeltas ie be ds)).totalItems
          = sumItems ds - ie
      ∧ (reporterExit ie be false (runReportDeltas ie be ds)).totalBytes
          = sumBytes ds - be
      ∧ (reporterExit ie be false (runReportDeltas ie be ds)).processedItems
          = sumItems ds
      ∧ (reporterExit ie be false (runReportDeltas ie be ds)).processedBytes
          = sumBytes ds := by
  intro ie be ds
  obtain ⟨h1, h2, h3, h4⟩ :=
    foldl_reportDelta_conserves ie be ds (⟨0, 0⟩, CbStats.zero)
  simp only [runReportDeltas, reporterExit, if_neg Bool.false_ne_true,
    cbUpdateDataTotal, CbStats.zero] at *
  refine ⟨?_, ?_, ?_, ?_⟩ <;> simp_all <;> omega

/-- C3 (abnormal-exit reconciliation): for every `ItemStatReporter` with
expected `(ie, be)` whose `reportDelta` calls report a cumulative `(i, b)`
before the scope exits abnormally, the scope-exit action adds the reported
amounts to the total, so — starting from an external total that already
accounts the planned `(ie, be)` — the net total is `ie + i` items and
`be + b` bytes: the originally planned expected stays in the total and the
reported work is added on top. -/
theorem abnormalExitReconciliation :
    ∀ (ie be : ℤ) (ds : List (ℤ × ℤ)),
      (reporterExit ie be true
          (ds.foldl (reportDelta ie be)
            (⟨0, 0⟩, cbUpdateDataTotal CbStats.zero ie be))).totalItems
        = ie + sumItems ds
      ∧ (reporterExit ie be true
          (ds.foldl (reportDelta ie be)
            (⟨0, 0⟩, cbUpdateDataTotal CbStats.zero ie be))).totalBytes
        = be + sumBytes ds
      ∧ (reporterExit ie be true
          (ds.foldl (reportDelta ie be)
            (⟨0, 0⟩, cbUpdateDataTotal CbStats.zero ie be))).processedItems
        = sumItems ds
      ∧ (reporterExit ie be true
          (ds.foldl (reportDelta ie be)
            (⟨0, 0⟩, cbUpdateDataTotal CbStats.zero ie be))).processedBytes
        = sumBytes ds := by
  intro ie be ds
  obtain ⟨h1, h2, h3, h4⟩ :=
    foldl_reportDelta_conserves ie be ds (⟨0, 0⟩, cbUpdateDataTotal CbStats.zero ie be)
  simp only [reporterExit, if_pos rfl, cbUpdateDataTotal, CbStats.zero] at *
  refine ⟨?_, ?_, ?_, ?_⟩ <;> simp_all <;> omega

/-- C9 (clamp invariant): after every `reportDelta` call the internal
accumulators satisfy `itemsReported ≤ itemsExpected` and
`bytesReported ≤ bytesExpected`; consequently, after at least one
`reportDelta`, the normal-exit correction
`updateDataTotal(itemsReported - itemsExpected, bytesReported - bytesExpected)`
never passes a positive delta. -/
theorem reportDeltaClampInvariant :
    (∀ (ie be : ℤ) (s : ReporterState × CbStats) (d : ℤ × ℤ),
      (reportDelta ie be s d).1.itemsReported ≤ ie
      ∧ (reportDelta ie be s d).1.bytesReported ≤ be)
    ∧ (∀ (ie be : ℤ) (ds : List (ℤ × ℤ)), ds ≠ [] →
      (runReportDeltas ie be ds).1.itemsReported - ie ≤ 0
      ∧ (runReportDeltas ie be ds).1.bytesReported - be ≤ 0) := by
  constructor
  · exact reportDelta_clamped
  · intro ie be ds hne
    match ds with
    | [] => exact absurd rfl hne
    | d :: ds =>
      have h := foldl_reportDelta_clamped ie be ds
        (reportDelta ie be (⟨0, 0⟩, CbStats.zero) d)
        (reportDelta_clamped ie be (⟨0, 0⟩, CbStats.zero) d)
      simp only [runReportDeltas, List.foldl_cons]
      omega

/-- C9 witness: the clamp invariant applied at a concrete over-reporting run:
one `reportDelta(1, 120)` against expected `(1, 100)` leaves a non-positive
normal-exit correction. -/
theorem reportDeltaClampInvariantWitness :
    ([((1 : ℤ), (120 : ℤ))] ≠ ([] : List (ℤ × ℤ)))
    ∧ ((runReportDeltas 1 100 [(1, 120)]).1.itemsReported - 1 ≤ 0
      ∧ (runReportDeltas 1 100 [(1, 120)]).1.bytesReported - 100 ≤ 0) :=
  ⟨by decide, reportDeltaClampInvariant.2 1 100 [(1, 120)] (by decide)⟩

/-! ### Retry wrapper (`tryReportingError`) -/

/-- Outcome of one invocation of the fallible action `cmd()`: success, a
`zen::FileError` carrying a message, or any other error kind. -/
inductive ActionOutcome where
  | success
  | fileError (msg : String)
  | otherError (code : ℕ)
deriving DecidableEq, Repr

/-- `PhaseCallback::Response`. -/
inductive Response where
  | ignore
  | retry
deriving DecidableEq, Repr

/-- `PhaseCallback::ErrorInfo`: message, timestamp and retry number. -/
structure ErrorInfo where
  msg : String
  time : ℕ
  retryNumber : ℕ
deriving DecidableEq, Repr

/-- Result of `tryReportingError`: the returned string, a propagated
non-`FileError` error, or fuel exhaustion (the source loop has no retry
cap, so an always-retrying callback loops forever). -/
inductive TryOutcome where
  | returned (msg : String)
  | propagated (code : ℕ)
  | fuelExhausted
deriving DecidableEq, Repr

/-- The loop of `tryReportingError`, with the action modelled as a function of
the attempt number and the wall clock as a function of the attempt number.
Returns the outcome, the `ErrorInfo` values passed to `cb.reportError` in
order, and the number of times the action was invoked. -/
def tryReportingErrorGo (cmd : ℕ → ActionOutcome) (cb : ErrorInfo → Response)
    (clock : ℕ → ℕ) : ℕ → ℕ → TryOutcome × List ErrorInfo × ℕ
  | 0, _ => (.fuelExhausted, [], 0)
  | fuel + 1, retryNumber =>
    match cmd retryNumber with
    | .success => (.returned "", [], 1)
    | .otherError c => (.propagated c, [], 1)
    | .fileError m =>
      let info : ErrorInfo := ⟨m, clock retryNumber, retryNumber⟩
      match cb info with
      | .ignore => (.returned m, [info], 1)
      | .retry =>
        let r := tryReportingErrorGo cmd cb clock fuel (retryNumber + 1)
        (r.1, info :: r.2.1, r.2.2 + 1)

/-- `tryReportingError`: the loop starts at `retryNumber = 0`. -/
def tryReportingError (fuel : ℕ) (cmd : ℕ → ActionOutcome)
    (cb : ErrorInfo → Response) (clock : ℕ → ℕ) :
    TryOutcome × List ErrorInfo × ℕ :=
  tryReportingErrorGo cmd cb clock fuel 0

lemma tryReportingErrorGo_spec (cmd : ℕ → ActionOutcome)
    (cb : ErrorInfo → Response) (clock : ℕ → ℕ) (fuel start : ℕ) :
    ((tryReportingErrorGo cmd cb clock fuel start).2.1.map ErrorInfo.retryNumber
        = List.range' start (tryReportingErrorGo cmd cb clock fuel start).2.1.length)
    ∧ (∀ info ∈ (tryReportingErrorGo cmd cb clock fuel start).2.1,
        cmd info.retryNumber = .fileError info.msg
        ∧ info.time = clock info.retryNumber)
    ∧ (∀ (i : ℕ) (info : ErrorInfo),
        (tryReportingErrorGo cmd cb clock fuel start).2.1[i]? = some info →
        i + 1 < (tryReportingErrorGo cmd cb clock fuel start).2.1.length →
        cb info = .retry)
    ∧ ((tryReportingErrorGo cmd cb clock fuel start).1 = .fuelExhausted
      ∨ (cmd (start + (tryReportingErrorGo cmd cb clock fuel start).2.1.length)
            = .success
          ∧ (tryReportingErrorGo cmd cb clock fuel start).1 = .returned ""
          ∧ (tryReportingErrorGo cmd cb clock fuel start).2.2
            = (tryReportingErrorGo cmd cb clock fuel start).2.1.length + 1)
      ∨ (∃ c, cmd (start + (tryReportingErrorGo cmd cb clock fuel start).2.1.length)
            = .otherError c
          ∧ (tryReportingErrorGo cmd cb clock fuel start).1 = .propagated c
          ∧ (tryReportingErrorGo cmd cb clock fuel start).2.2
            = (tryReportingErrorGo cmd cb clock fuel start).2.1.length + 1)
      ∨ (∃ m, 0 < (tryReportingErrorGo cmd cb clock fuel start).2.1.length
          ∧ cmd (start + (tryReportingErrorGo cmd cb clock fuel start).2.1.length - 1)
            = .fileError m
          ∧ cb ⟨m, clock (start + (tryReportingErrorGo cmd cb clock fuel start).2.1.length - 1),
                start + (tryReportingErrorGo cmd cb clock fuel start).2.1.length - 1⟩
            = .ignore
          ∧ (tryReportingErrorGo cmd cb clock fuel start).1 = .returned m
          ∧ (tryReportingErrorGo cmd cb clock fuel start).2.2
            = (tryReportingErrorGo cmd cb clock fuel start).2.1.length)) := by
  induction fuel generalizing start with
  | zero =>
    simp [tryReportingErrorGo]
  | succ fuel ih =>
    rcases hc : cmd start with _ | m | c
    · refine ⟨?_, ?_, ?_, ?_⟩ <;>
        simp [tryReportingErrorGo, hc]
    · rcases hcb : cb ⟨m, clock start, start⟩ with _ | _
      · have hunfold : tryReportingErrorGo cmd cb clock (fuel + 1) start
            = (.returned m, [⟨m, clock start, start⟩], 1) := by
          simp [tryReportingErrorGo, hc, hcb]
        rw [hunfold]
        refine ⟨by simp [List.range'_one], ?_, ?_, ?_⟩
        · intro info hinfo
          simp only [List.mem_singleton] at hinfo
          subst hinfo
          exact ⟨hc, rfl⟩
        · intro i info hget hlt
          simp at hlt
        · right; right; right
          exact ⟨m, by simp, by simpa using hc, by simpa using hcb, rfl, rfl⟩
      · obtain ⟨ih1, ih2, ih3, ih4⟩ := ih (start + 1)
        have hunfold : tryReportingErrorGo cmd cb clock (fuel + 1) start
            = ((tryReportingErrorGo cmd cb clock fuel (start + 1)).1,
               ⟨m, clock start, start⟩
                 :: (tryReportingErrorGo cmd cb clock fuel (start + 1)).2.1,
               (tryReportingErrorGo cmd cb clock fuel (start + 1)).2.2 + 1) := by
          simp [tryReportingErrorGo, hc, hcb]
        rw [hunfold]
        refine ⟨?_, ?_, ?_, ?_⟩
        · simpa [List.range'_succ] using ih1
        · intro info hinfo
          rcases List.mem_cons.1 hinfo with h | h
          · subst h; exact ⟨hc, rfl⟩
          · exact ih2 info h
        · intro i info hget hlt
          match i with
          | 0 =>
            simp only [List.getElem?_cons_zero, Option.some.injEq] at hget
            subst hget
            exact hcb
          | i + 1 =>
            simp only [List.getElem?_cons_succ] at hget
            simp only [List.length_cons] at hlt
            exact ih3 i info hget (by omega)
        · rcases ih4 with h | ⟨h1, h2, h3⟩ | ⟨c, h1, h2, h3⟩ | ⟨m', h1, h2, h3, h4, h5⟩
          · left; exact h
          · right; left
            refine ⟨?_, h2, ?_⟩
            · simp only [List.length_cons]
              have harg : start
                    + ((tryReportingErrorGo cmd cb clock fuel (start + 1)).2.1.length + 1)
                  = start + 1
                    + (tryReportingErrorGo cmd cb clock fuel (start + 1)).2.1.length := by
                omega
              rw [harg]
              exact h1
            · simp [h3]
          · right; right; left
            refine ⟨c, ?_, h2, ?_⟩
            · simp only [List.length_cons]
              have harg : start
                    + ((tryReportingErrorGo cmd cb clock fuel (start + 1)).2.1.length + 1)
                  = start + 1
                    + (tryReportingErrorGo cmd cb clock fuel (start + 1)).2.1.length := by
                omega
              rw [harg]
              exact h1
            · simp [h3]
          · right; right; right
            refine ⟨m', by simp, ?_, ?_, h4, by simp [h5]⟩
            · have harg : start + ((tryReportingErrorGo cmd cb clock fuel (start + 1)).2.1.length + 1) - 1
                  = start + 1 + (tryReportingErrorGo cmd cb clock fuel (start + 1)).2.1.length - 1 := by
                omega
              simpa [harg] using h2
            · have harg : start + ((tryReportingErrorGo cmd cb clock fuel (start + 1)).2.1.length + 1) - 1
                  = start + 1 + (tryReportingErrorGo cmd cb clock fuel (start + 1)).2.1.length - 1 := by
                omega
              simpa [harg] using h3
    · refine ⟨?_, ?_, ?_, ?_⟩ <;>
        simp [tryReportingErrorGo, hc]

/-- C4 (retry wrapper behaviour): `tryReportingError` invokes the action with
`retryNumber` starting at `0`; each `FileError` failure is reported to
`cb.reportError` with the error message, the timestamp of that attempt and the
current retry number (the reported retry numbers are consecutive from `0`); a
`retry` response re-invokes the action with the incremented retry number
(every reported error except the last received a `retry` response); an
`ignore` response returns the error message string without re-invoking the
action (the action runs exactly as many times as errors were reported); a
successful action returns the empty string; and a non-`FileError` error
propagates unchanged (modulo fuel exhaustion, which models the cap-free
loop). -/
theorem tryReportingErrorSpec :
    ∀ (fuel : ℕ) (cmd : ℕ → ActionOutcome) (cb : ErrorInfo → Response)
      (clock : ℕ → ℕ),
      ((tryReportingError fuel cmd cb clock).2.1.map ErrorInfo.retryNumber
          = List.range (tryReportingError fuel cmd cb clock).2.1.length)
      ∧ (∀ info ∈ (tryReportingError fuel cmd cb clock).2.1,
          cmd info.retryNumber = .fileError info.msg
          ∧ info.time = clock info.retryNumber)
      ∧ (∀ (i : ℕ) (info : ErrorInfo),
          (tryReportingError fuel cmd cb clock).2.1[i]? = some info →
          i + 1 < (tryReportingError fuel cmd cb clock).2.1.length →
          cb info = .retry)
      ∧ ((tryReportingError fuel cmd cb clock).1 = .fuelExhausted
        ∨ (cmd (tryReportingError fuel cmd cb clock).2.1.length = .success
            ∧ (tryReportingError fuel cmd cb clock).1 = .returned ""
            ∧ (tryReportingError fuel cmd cb clock).2.2
              = (tryReportingError fuel cmd cb clock).2.1.length + 1)
        ∨ (∃ c, cmd (tryReportingError fuel cmd cb clock).2.1.length
              = .otherError c
            ∧ (tryReportingError fuel cmd cb clock).1 = .propagated c
            ∧ (tryReportingError fuel cmd cb clock).2.2
              = (tryReportingError fuel cmd cb clock).2.1.length + 1)
        ∨ (∃ m, 0 < (tryReportingError fuel cmd cb clock).2.1.length
            ∧ cmd ((tryReportingError fuel cmd cb clock).2.1.length - 1)
              = .fileError m
            ∧ cb ⟨m, clock ((tryReportingError fuel cmd cb clock).2.1.length - 1),
                  (tryReportingError fuel cmd cb clock).2.1.length - 1⟩
              = .ignore
            ∧ (tryReportingError fuel cmd cb clock).1 = .returned m
            ∧ (tryReportingError fuel cmd cb clock).2.2
              = (tryReportingError fuel cmd cb clock).2.1.length)) := by
  intro fuel cmd cb clock
  have h := tryReportingErrorGo_spec cmd cb clock fuel 0
  simpa [tryReportingError, List.range_eq_range'] using h

/-! ### Per-thread status registry (`AsyncCallback::getCurrentStatus`) -/

/-- `AsyncCallback::ThreadStatus`: one entry per active worker task. -/
structure ThreadStatus where
  threadId : ℕ
  statusMsg : String
deriving DecidableEq, Repr

/-- `statusByPriority_`: buckets of thread statuses, bucket index = priority. -/
abbrev StatusRegistry := List (List ThreadStatus)

/-- Modelled from the spec: the localized plural `_P("1 thread", "%x threads",
n)` lives in the zen localization layer, which is not under `src/`; it is
rendered here as the English source strings. -/
def threadsText (n : ℕ) : String :=
  if n = 1 then "1 thread" else toString n ++ " threads"

/-- The `"[N threads] "` marker prepended by `getCurrentStatus` when at least
two priority buckets are active. -/
def threadsMarker (n : ℕ) : String :=
  "[" ++ threadsText n ++ "] "

/-- The inner loop of `getCurrentStatus`: first non-empty message of one
bucket. -/
def bucketFirstMsg : List ThreadStatus → Option String
  | [] => none
  | ts :: rest =>
    if ts.statusMsg ≠ "" then some ts.statusMsg else bucketFirstMsg rest

/-- The nested scan of `getCurrentStatus`: first non-empty status message in
priority order, or the empty string. -/
def scanStatusMsg : StatusRegistry → String
  | [] => ""
  | sbp :: rest =>
    match bucketFirstMsg sbp with
    | some m => m
    | none => scanStatusMsg rest

/-- `AsyncCallback::getCurrentStatus` (main thread): count non-empty buckets,
scan for a representative message, and prepend the thread-count marker when
two or more buckets are active. -/
def getCurrentStatus (reg : StatusRegistry) : String :=
  let parallelOpsTotal :=
    reg.foldl (fun acc sbp => acc + (if sbp.isEmpty then 0 else 1)) 0
  let statusMsg := scanStatusMsg reg
  if 2 ≤ parallelOpsTotal then threadsMarker parallelOpsTotal ++ statusMsg
  else statusMsg

/-- Specification-level bucket count: the number of non-empty buckets. -/
def parallelOpsSpec (reg : StatusRegistry) : ℕ :=
  reg.countP (fun sbp => !sbp.isEmpty)

/-- Specification-level representative message: the first non-empty status
message of the flattened registry, or `""`. -/
def repMsgSpec (reg : StatusRegistry) : String :=
  (((reg.flatten).find? (fun ts => ts.statusMsg != "")).map
    ThreadStatus.statusMsg).getD ""

lemma foldl_count_eq (reg : StatusRegistry) (n : ℕ) :
    reg.foldl (fun acc sbp => acc + (if sbp.isEmpty then 0 else 1)) n
      = n + parallelOpsSpec reg := by
  induction reg generalizing n with
  | nil => simp [parallelOpsSpec]
  | cons b rest ih =>
    simp only [List.foldl_cons, parallelOpsSpec, List.countP_cons, ih]
    by_cases hb : b.isEmpty <;> simp [hb, parallelOpsSpec] <;> omega

lemma bucketFirstMsg_eq (b : List ThreadStatus) :
    bucketFirstMsg b
      = (b.find? (fun ts => ts.statusMsg != "")).map ThreadStatus.statusMsg := by
  induction b with
  | nil => simp [bucketFirstMsg]
  | cons ts rest ih =>
    by_cases h : ts.statusMsg = ""
    · rw [bucketFirstMsg, if_neg (by simp [h]),
        List.find?_cons_of_neg _ (by simp [h]), ih]
    · rw [bucketFirstMsg, if_pos (by simp [h]),
        List.find?_cons_of_pos _ (by simp [h])]
      rfl

lemma scanStatusMsg_eq (reg : StatusRegistry) :
    scanStatusMsg reg = repMsgSpec reg := by
  induction reg with
  | nil => simp [scanStatusMsg, repMsgSpec]
  | cons b rest ih =>
    have hr : repMsgSpec (b :: rest)
        = (((b.find? (fun ts => ts.statusMsg != "")).or
            ((rest.flatten).find? (fun ts => ts.statusMsg != ""))).map
              ThreadStatus.statusMsg).getD "" := by
      unfold repMsgSpec
      rw [List.flatten_cons, List.find?_append]
    rw [scanStatusMsg, bucketFirstMsg_eq, hr]
    rcases h : b.find? (fun ts => ts.statusMsg != "") with _ | ts
    · rw [h]
      simpa [repMsgSpec] using ih
    · rw [h]
      rfl

lemma threadsMarker_length (n : ℕ) :
    (threadsMarker n).length = (threadsText n).length + 3 := by
  rw [threadsMarker, String.length_append, String.length_append]
  have h1 : ("[" : String).length = 1 := rfl
  have h2 : ("] " : String).length = 2 := rfl
  rw [h1, h2]
  omega

lemma marker_append_ne (n : ℕ) (m : String) : threadsMarker n ++ m ≠ m := by
  intro h
  have hlen : (threadsMarker n ++ m).length = m.length := by rw [h]
  rw [String.length_append, threadsMarker_length] at hlen
  omega

/-- C6 (representative status selection): `getCurrentStatus` counts the
non-empty priority buckets as `parallelOps`, returns the first non-empty
status message found scanning buckets in priority order (the empty string if
none), and the returned string carries the `"[N threads] "` marker in front of
that message if and only if `parallelOps ≥ 2`. -/
theorem getCurrentStatusSpec :
    ∀ reg : StatusRegistry,
      (getCurrentStatus reg
        = if 2 ≤ parallelOpsSpec reg then
            threadsMarker (parallelOpsSpec reg) ++ repMsgSpec reg
          else repMsgSpec reg)
      ∧ (getCurrentStatus reg
          = threadsMarker (parallelOpsSpec reg) ++ repMsgSpec reg
        ↔ 2 ≤ parallelOpsSpec reg) := by
  intro reg
  have hmain : getCurrentStatus reg
      = if 2 ≤ parallelOpsSpec reg then
          threadsMarker (parallelOpsSpec reg) ++ repMsgSpec reg
        else repMsgSpec reg := by
    unfold getCurrentStatus
    rw [foldl_count_eq, scanStatusMsg_eq]
    simp
  refine ⟨hmain, ?_, ?_⟩
  · intro h
    by_contra hlt
    rw [hmain, if_neg hlt] at h
    exact marker_append_ne (parallelOpsSpec reg) (repMsgSpec reg) h.symm
  · intro h
    rw [hmain, if_pos h]

lemma repMsgSpec_all_empty (reg : StatusRegistry)
    (h : ∀ ts ∈ reg.flatten, ts.statusMsg = "") : repMsgSpec reg = "" := by
  unfold repMsgSpec
  rcases hf : (reg.flatten).find? (fun ts => ts.statusMsg != "") with _ | ts
  · rw [hf]
    rfl
  · have hmem := List.mem_of_find?_eq_some hf
    have hpred := List.find?_some hf
    have := h ts hmem
    simp [this] at hpred

/-- C10 (marker on empty messages): when two or more priority buckets are
non-empty but every registered worker's status message is the empty string,
`getCurrentStatus` still returns the `"[N threads] "` marker followed by the
empty message — a non-empty string — rather than the empty string. -/
theorem threadMarkerOnEmptyMessages :
    ∀ reg : StatusRegistry, 2 ≤ parallelOpsSpec reg →
      (∀ ts ∈ reg.flatten, ts.statusMsg = "") →
      (getCurrentStatus reg = threadsMarker (parallelOpsSpec reg) ++ ""
      ∧ getCurrentStatus reg ≠ "") := by
  intro reg hge hall
  have hmsg := repMsgSpec_all_empty reg hall
  have hmain : getCurrentStatus reg
      = threadsMarker (parallelOpsSpec reg) ++ repMsgSpec reg := by
    unfold getCurrentStatus
    rw [foldl_count_eq, scanStatusMsg_eq]
    simp only [Nat.zero_add]
    rw [if_pos hge]
  rw [hmsg] at hmain
  refine ⟨hmain, ?_⟩
  rw [hmain]
  intro h
  have := marker_append_ne (parallelOpsSpec reg) ""
  exact this (by simpa using h)

/-- C10 witness: a registry of two active buckets whose only entries carry
empty messages yields the bare thread-count marker. -/
theorem threadMarkerOnEmptyMessagesWitness :
    getCurrentStatus [[⟨0, ""⟩], [⟨1, ""⟩]]
        = threadsMarker (parallelOpsSpec [[⟨0, ""⟩], [⟨1, ""⟩]]) ++ ""
    ∧ getCurrentStatus [[⟨0, ""⟩], [⟨1, ""⟩]] ≠ "" :=
  threadMarkerOnEmptyMessages [[⟨0, ""⟩], [⟨1, ""⟩]] (by decide) (by decide)

/-! ### Mass-parallel executor (`massParallelExecute`) -/

/-- `AfsDevice`: an opaque device key, modelled as a natural number. -/
abbrev AfsDevice := ℕ

/-- `AbstractPath`: a device key plus an opaque path component. -/
structure AbstractPath where
  afsDevice : AfsDevice
  afsPath : ℕ
deriving DecidableEq, Repr

/-- One workload entry: an `AbstractPath` paired with an opaque work-function
identifier. -/
abbrev WorkItem := AbstractPath × ℕ

/-- Insertion into the key-sorted device map (`std::map<AfsDevice, ...>`):
an existing bucket gets the item appended (`push_back`), a new key is placed
in ascending key order. -/
def insertDevice (k : AfsDevice) (v : ℕ) :
    List (AfsDevice × List ℕ) → List (AfsDevice × List ℕ)
  | [] => [(k, [v])]
  | (k', vs) :: rest =>
    if k = k' then (k', vs ++ [v]) :: rest
    else if k < k' then (k, [v]) :: (k', vs) :: rest
    else (k', vs) :: insertDevice k v rest

/-- `perDeviceWorkload`: the workload bucketed by `item.first.afsDevice`. -/
def perDeviceWorkload (workload : List WorkItem) : List (AfsDevice × List ℕ) :=
  workload.foldl (fun m item => insertDevice item.1.afsDevice item.2 m) []

/-- One invocation of an operation of the external `PhaseCallback`. -/
inductive PhaseEvent where
  | updateStatus (msg : String)
  | logInfo (msg : String)
  | statProcessed (items bytes : ℤ)
  | statTotal (items bytes : ℤ)
  | errorQuery
deriving DecidableEq, Repr

/-- Observable behaviour of `massParallelExecute workload`: the list of
external-callback invocations and the number of per-device worker pools
constructed.  The empty-bucket case returns immediately ([!] otherwise
`notifyAllDone` would never fire); the non-empty case — whose event
interleavings depend on thread scheduling — is abstracted: it constrains only
the pool count (one `ThreadGroup` per device bucket). -/
inductive MassExec : List WorkItem → List PhaseEvent → ℕ → Prop where
  | empty (workload : List WorkItem) :
      perDeviceWorkload workload = [] → MassExec workload [] 0
  | run (workload : List WorkItem) (events : List PhaseEvent) :
      perDeviceWorkload workload ≠ [] →
      MassExec workload events (perDeviceWorkload workload).length

/-- C7 (empty-workload safety): for the empty workload,
`massParallelExecute` returns immediately without constructing worker pools
and without invoking any operation of the external phase callback. -/
theorem massParallelExecuteEmpty :
    ∀ (events : List PhaseEvent) (pools : ℕ),
      MassExec [] events pools → events = [] ∧ pools = 0 := by
  intro events pools h
  cases h with
  | empty _ => exact ⟨rfl, rfl⟩
  | run _ hne => exact absurd rfl hne

/-- C7 witness: the empty-workload execution exists and the theorem applies
to it. -/
theorem massParallelExecuteEmptyWitness :
    perDeviceWorkload [] = []
    ∧ (([] : List PhaseEvent) = [] ∧ (0 : ℕ) = 0) :=
  ⟨rfl, massParallelExecuteEmpty [] 0 (MassExec.empty [] rfl)⟩

/-! ### Request-channel error rendezvous (`reportError` / `waitUntilDone`) -/

/-- Where a worker stands with respect to `reportError`: outside the call, or
parked on `conditionHaveResponse_` after posting its `errorRequest_`. -/
inductive WorkerPC where
  | idle
  | waiting
deriving DecidableEq, Repr

/-- The `errorRequest_` / `errorResponse_` slots of the request channel plus
each worker's position.  A pending request records the posting worker and an
opaque payload. -/
structure ChState where
  errorRequest : Option (ℕ × ℕ)
  errorResponse : Option ℕ
  workers : ℕ → WorkerPC

/-- The channel before any request. -/
def chInit : ChState := ⟨none, none, fun _ => .idle⟩

/-- Transition labels: a worker posts its error, the main thread responds, the
posting worker consumes the response and clears both slots. -/
inductive ChLabel where
  | post (w payload : ℕ)
  | respond (r : ℕ)
  | consume (w : ℕ)
deriving DecidableEq, Repr

/-- Transitions of the error rendezvous:

* `post` — `reportError`'s first wait `!errorRequest_ && !errorResponse_`
  passes and the worker stores its request and blocks for the response;
* `respond` — `waitUntilDone` sees `errorRequest_ && !errorResponse_`, calls
  the external callback and stores `errorResponse_`;
* `consume` — the parked worker wakes on `errorResponse_`, reads it, and
  clears both slots together before returning. -/
inductive ChStep : ChState → ChLabel → ChState → Prop where
  | post (s : ChState) (w payload : ℕ) :
      s.workers w = .idle →
      s.errorRequest = none →
      s.errorResponse = none →
      ChStep s (.post w payload)
        ⟨some (w, payload), none,
         fun x => if x = w then .waiting else s.workers x⟩
  | respond (s : ChState) (w payload r : ℕ) :
      s.errorRequest = some (w, payload) →
      s.errorResponse = none →
      ChStep s (.respond r)
        ⟨s.errorRequest, some r, s.workers⟩
  | consume (s : ChState) (w r : ℕ) :
      s.workers w = .waiting →
      s.errorResponse = some r →
      ChStep s (.consume w)
        ⟨none, none, fun x => if x = w then .idle else s.workers x⟩

/-- Reachability from the initial channel state. -/
def ChReach (s : ChState) : Prop :=
  Relation.ReflTransGen (fun a b => ∃ l, ChStep a l b) chInit s

/-- The channel invariant: a pending request belongs to a worker parked for
its response, a parked worker owns the pending request, and a response exists
only for a pending request. -/
def ChInv (s : ChState) : Prop :=
  (∀ w payload, s.errorRequest = some (w, payload) → s.workers w = .waiting)
  ∧ (∀ w, s.workers w = .waiting → ∃ payload, s.errorRequest = some (w, payload))
  ∧ (s.errorResponse ≠ none → s.errorRequest ≠ none)

lemma chInv_init : ChInv chInit := by
  refine ⟨?_, ?_, ?_⟩ <;> simp [chInit]

lemma chInv_step (s s' : ChState) (l : ChLabel)
    (hinv : ChInv s) (hstep : ChStep s l s') : ChInv s' := by
  obtain ⟨h1, h2, h3⟩ := hinv
  cases hstep with
  | post w payload hw hreq hresp =>
    refine ⟨?_, ?_, ?_⟩
    · intro w' p' he
      simp only [Option.some.injEq, Prod.mk.injEq] at he
      simp [← he.1]
    · intro w' hw'
      by_cases hww : w' = w
      · exact ⟨payload, by simp [hww]⟩
      · simp only [if_neg hww] at hw'
        obtain ⟨p, hp⟩ := h2 w' hw'
        rw [hreq] at hp
        exact absurd hp (by simp)
    · intro h
      simp at h
  | respond w payload r hreq hresp =>
    refine ⟨?_, ?_, ?_⟩
    · intro w' p' he
      exact h1 w' p' he
    · intro w' hw'
      exact h2 w' hw'
    · intro _
      simp [hreq]
  | consume w r hw hresp =>
    refine ⟨?_, ?_, ?_⟩
    · intro w' p' he
      simp at he
    · intro w' hw'
      by_cases hww : w' = w
      · simp [hww] at hw'
      · simp only [if_neg hww] at hw'
        obtain ⟨p, hp⟩ := h2 w' hw'
        obtain ⟨p', hp'⟩ := h2 w hw
        rw [hp'] at hp
        simp only [Option.some.injEq, Prod.mk.injEq] at hp
        exact absurd hp.1.symm hww
    · intro h
      simp at h

lemma chInv_reach (s : ChState) (h : ChReach s) : ChInv s := by
  induction h with
  | refl => exact chInv_init
  | tail _ hstep ih =>
    obtain ⟨l, hl⟩ := hstep
    exact chInv_step _ _ _ ih hl

/-- C8 (error-slot exclusivity): in every reachable state of the
request-channel state machine, a pending `errorRequest` belongs to the worker
that posted it, which is still parked for its response; no `post` step — by
any worker — is possible while either slot is occupied, so a second
`reportError` cannot post until the first poster has read its response; and
the only step that clears a pending `errorRequest` is a `consume` by the
posting worker, which clears `errorRequest` and `errorResponse` together
after the response has been produced. -/
theorem errorSlotExclusivity :
    ∀ s : ChState, ChReach s →
      ((∀ w payload, s.errorRequest = some (w, payload) →
          s.workers w = .waiting)
      ∧ (∀ (w payload : ℕ) (s' : ChState),
          (s.errorRequest ≠ none ∨ s.errorResponse ≠ none) →
          ¬ ChStep s (.post w payload) s')
      ∧ (∀ (l : ChLabel) (s' : ChState), ChStep s l s' →
          s.errorRequest ≠ none → s'.errorRequest = none →
          ∃ w, l = .consume w
            ∧ (∃ payload, s.errorRequest = some (w, payload))
            ∧ s.errorResponse ≠ none
            ∧ s'.errorResponse = none)) := by
  intro s hreach
  obtain ⟨h1, h2, h3⟩ := chInv_reach s hreach
  refine ⟨h1, ?_, ?_⟩
  · intro w payload s' hbusy hstep
    cases hstep with
    | post w2 payload2 hw hreq hresp =>
      rcases hbusy with h | h
      · exact h hreq
      · exact h hresp
  · intro l s' hstep hpend hclear
    cases hstep with
    | post w payload hw hreq hresp =>
      exact absurd hreq hpend
    | respond w payload r hreq hresp =>
      simp only [hreq] at hclear
      exact absurd hclear (by simp)
    | consume w r hw hresp =>
      obtain ⟨payload, hp⟩ := h2 w hw
      exact ⟨w, rfl, ⟨payload, hp⟩, by simp [hresp], rfl⟩

/-- C8 witness: the state with worker `0`'s request pending is reachable, and
there worker `1` cannot post. -/
theorem errorSlotExclusivityWitness :
    ¬ ChStep
        ⟨some (0, 5), none, fun x => if x = 0 then WorkerPC.waiting else chInit.workers x⟩
        (ChLabel.post 1 7)
        ⟨some (1, 7), none,
         fun x => if x = 1 then WorkerPC.waiting
           else if x = 0 then WorkerPC.waiting else chInit.workers x⟩ := by
  have hreach : ChReach
      ⟨some (0, 5), none, fun x => if x = 0 then WorkerPC.waiting else chInit.workers x⟩ :=
    Relation.ReflTransGen.tail Relation.ReflTransGen.refl
      ⟨ChLabel.post 0 5, ChStep.post chInit 0 5 rfl rfl rfl⟩
  exact (errorSlotExclusivity _ hreach).2.1 1 7 _ (Or.inl (by simp))

/-! ### Percent reporter (`PercentStatReporter`) -/

/-- Modelled from the spec: `UI_UPDATE_INTERVAL` lives in
`process_callback.h`, which is not under `src/`; the spec fixes the refresh
check to half of the ambient UI tick, ~50 ms. -/
def uiRefreshSec : ℚ := 1 / 20

/-- `STATUS_PERCENT_DELAY` (2 s). -/
def statusPercentDelaySec : ℚ := 2

/-- `STATUS_PERCENT_MIN_DURATION` (3 s). -/
def statusPercentMinDurationSec : ℚ := 3

/-- Modelled from the spec: `SpeedTest` lives in `speed_test.h`, which is not
under `src/`.  Per spec §4.5 it is a sliding-window bytes-per-second
estimator of window width `STATUS_PERCENT_SPEED_WINDOW = 10 s`: samples are
`(time, bytes)` pairs, samples older than the window are discarded, the rate
is taken across the retained window, and the remaining-seconds estimate is
`remaining bytes / rate` when the rate is positive. -/
structure SpeedTest where
  samples : List (ℚ × ℤ)
deriving DecidableEq, Repr

/-- The sliding-window width (`STATUS_PERCENT_SPEED_WINDOW`, 10 s). -/
def speedWindowSec : ℚ := 10

/-- Modelled from the spec: append a sample, discarding samples that fell out
of the window. -/
def SpeedTest.addSample (st : SpeedTest) (t : ℚ) (b : ℤ) : SpeedTest :=
  ⟨(st.samples.filter (fun s => decide (t - speedWindowSec ≤ s.1))) ++ [(t, b)]⟩

/-- `SpeedTest::clear`. -/
def SpeedTest.clear : SpeedTest := ⟨[]⟩

/-- Modelled from the spec: bytes/sec across the retained window, defined
when the window spans positive time. -/
def SpeedTest.getBytesPerSec (st : SpeedTest) : Option ℚ :=
  match st.samples.head?, st.samples.getLast? with
  | some f, some l =>
    if f.1 < l.1 then some (((l.2 - f.2 : ℤ) : ℚ) / (l.1 - f.1)) else none
  | _, _ => none

/-- Modelled from the spec: estimated seconds to transfer `bytesRemaining`
at the current rate. -/
def SpeedTest.getRemainingSec (st : SpeedTest) (bytesRemaining : ℤ) :
    Option ℚ :=
  match st.getBytesPerSec with
  | some bps => if 0 < bps then some ((bytesRemaining : ℚ) / bps) else none
  | none => none

/-- The mutable state of `PercentStatReporter`: `showPercent_`, `startTime_`
(`none` models the default-constructed sentinel), `lastUpdate_` (`none`
models the default epoch, for which the first refresh check passes),
`speedTest_`, and the inner `ItemStatReporter` (constructed with
`itemsExpected = 1`) together with the callback accumulator it feeds. -/
structure PercentStatState where
  showPercent : Bool
  startTime : Option ℚ
  lastUpdate : Option ℚ
  speedTest : SpeedTest
  statReporter : ReporterState × CbStats
deriving DecidableEq, Repr

/-- A freshly constructed `PercentStatReporter`. -/
def initPercentState : PercentStatState :=
  ⟨false, none, none, SpeedTest.clear, (⟨0, 0⟩, CbStats.zero)⟩

/-- The `now >= lastUpdate_ + UI_UPDATE_INTERVAL / 2` refresh check. -/
def tickDue (lastUpdate : Option ℚ) (now : ℚ) : Bool :=
  match lastUpdate with
  | none => true
  | some lu => decide (lu + uiRefreshSec ≤ now)

/-- `PercentStatReporter::updateStatus(itemsDelta, bytesDelta)` at wall-clock
time `now`: forward the delta to the inner reporter; on a due refresh tick,
while the percent display is off and bytes were copied, start timing on the
first evaluation and after `STATUS_PERCENT_DELAY` query the estimator — the
display latches on iff the remaining estimate exceeds
`STATUS_PERCENT_MIN_DURATION`; once on, feed the estimator each tick (the
formatted status text itself is not modelled — no claim concerns it). -/
def percentUpdateStatus (bytesExpected : ℤ) (st : PercentStatState)
    (itemsDelta bytesDelta : ℤ) (now : ℚ) : PercentStatState :=
  let rep := reportDelta 1 bytesExpected st.statReporter (itemsDelta, bytesDelta)
  if tickDue st.lastUpdate now then
    let bytesCopied := rep.1.bytesReported
    let bytesTotal := bytesExpected
    let st1 : PercentStatState :=
      if !st.showPercent && decide (0 < bytesCopied) then
        match st.startTime with
        | none =>
          { st with statReporter := rep, lastUpdate := some now,
                    startTime := some now,
                    speedTest := st.speedTest.addSample 0 bytesCopied }
        | some t0 =>
          if decide (statusPercentDelaySec ≤ now - t0) then
            let sp := st.speedTest.addSample (now - t0) bytesCopied
            match sp.getRemainingSec (bytesTotal - bytesCopied) with
            | some remSecs =>
              if decide (statusPercentMinDurationSec < remSecs) then
                { st with statReporter := rep, lastUpdate := some now,
                          showPercent := true, speedTest := SpeedTest.clear }
              else
                { st with statReporter := rep, lastUpdate := some now,
                          speedTest := sp }
            | none =>
              { st with statReporter := rep, lastUpdate := some now,
                        speedTest := sp }
          else { st with statReporter := rep, lastUpdate := some now }
      else { st with statReporter := rep, lastUpdate := some now }
    if st1.showPercent then
      { st1 with
          speedTest := st1.speedTest.addSample (now - st1.startTime.getD 0) bytesCopied }
    else st1
  else { st with statReporter := rep }

/-- The exact condition under which one `percentUpdateStatus` call switches
the percent display on: a due refresh tick, display currently off, a positive
copied-bytes count, timing already started, the
`STATUS_PERCENT_DELAY` grace passed, and the freshly sampled estimator
reporting a remaining time above `STATUS_PERCENT_MIN_DURATION`. -/
def percentLatchCond (bytesExpected : ℤ) (st : PercentStatState)
    (itemsDelta bytesDelta : ℤ) (now : ℚ) : Bool :=
  let rep := reportDelta 1 bytesExpected st.statReporter (itemsDelta, bytesDelta)
  let bytesCopied := rep.1.bytesReported
  tickDue st.lastUpdate now && !st.showPercent && decide (0 < bytesCopied) &&
    (match st.startTime with
     | none => false
     | some t0 =>
       decide (statusPercentDelaySec ≤ now - t0) &&
         (match (st.speedTest.addSample (now - t0) bytesCopied).getRemainingSec
             (bytesExpected - bytesCopied) with
          | some remSecs => decide (statusPercentMinDurationSec < remSecs)
          | none => false))

/-- Run a sequence of `(itemsDelta, bytesDelta, now)` update calls from a
fresh reporter. -/
def runPercent (bytesExpected : ℤ) (steps : List (ℤ × ℤ × ℚ)) :
    PercentStatState :=
  steps.foldl
    (fun st s => percentUpdateStatus bytesExpected st s.1 s.2.1 s.2.2)
    initPercentState

/-- The counterexample trace for C5: against `bytesExpected = 1000`, report
500 bytes at t=100 s (starts timing), 490 bytes at t=102 s (first
post-`DELAY` evaluation: remaining ≈ 0.04 s, below `MIN_DURATION` — percent
stays off), 1 byte at t=104 s (still below), then 1 byte at t=113 s — the
10 s window now only spans the slow tail, the remaining estimate is 72 s,
and the percent display latches on after all. -/
def percentCexSteps : List (ℤ × ℤ × ℚ) :=
  [(0, 500, 100), (0, 490, 102), (0, 1, 104), (0, 1, 113)]

/-- C5 counterexample: at the first post-`DELAY` evaluation (the second call)
the estimated remaining time `2/49 s` is below `MIN_DURATION = 3 s` and the
percent display is not enabled — but the suppression is not permanent: two
calls later `showPercent` latches to `true`. -/
theorem percentHysteresisCex :
    (runPercent 1000 (percentCexSteps.take 1)).startTime = some 100
    ∧ tickDue (runPercent 1000 (percentCexSteps.take 1)).lastUpdate 102 = true
    ∧ statusPercentDelaySec ≤ (102 : ℚ) - 100
    ∧ ((runPercent 1000 (percentCexSteps.take 1)).speedTest.addSample
          ((102 : ℚ) - 100) 990).getRemainingSec (1000 - 990)
        = some (2 / 49)
    ∧ ((2 : ℚ) / 49 < statusPercentMinDurationSec)
    ∧ (runPercent 1000 (percentCexSteps.take 2)).showPercent = false
    ∧ (runPercent 1000 (percentCexSteps.take 3)).showPercent = false
    ∧ (runPercent 1000 percentCexSteps).showPercent = true := by
  have h1 : runPercent 1000 (percentCexSteps.take 1)
      = ⟨false, some 100, some 100, ⟨[(0, 500)]⟩, (⟨0, 500⟩, ⟨0, 500, 0, 0⟩)⟩ := by
    norm_num [runPercent, percentCexSteps, initPercentState, percentUpdateStatus,
      tickDue, reportDelta, cbUpdateDataProcessed, cbUpdateDataTotal,
      CbStats.zero, SpeedTest.addSample, SpeedTest.clear, uiRefreshSec,
      statusPercentDelaySec, statusPercentMinDurationSec, speedWindowSec,
      SpeedTest.getRemainingSec, SpeedTest.getBytesPerSec]
  have e2 : runPercent 1000 (percentCexSteps.take 2)
      = percentUpdateStatus 1000 (runPercent 1000 (percentCexSteps.take 1))
          0 490 102 := by
    simp [runPercent, percentCexSteps]
  have h2 : runPercent 1000 (percentCexSteps.take 2)
      = ⟨false, some 100, some 102, ⟨[(0, 500), (2, 990)]⟩,
         (⟨0, 990⟩, ⟨0, 990, 0, 0⟩)⟩ := by
    rw [e2, h1]
    norm_num [percentUpdateStatus, tickDue, reportDelta,
      cbUpdateDataProcessed, cbUpdateDataTotal, SpeedTest.addSample,
      SpeedTest.clear, uiRefreshSec, statusPercentDelaySec,
      statusPercentMinDurationSec, speedWindowSec, SpeedTest.getRemainingSec,
      SpeedTest.getBytesPerSec]
  have e3 : runPercent 1000 (percentCexSteps.take 3)
      = percentUpdateStatus 1000 (runPercent 1000 (percentCexSteps.take 2))
          0 1 104 := by
    simp [runPercent, percentCexSteps]
  have h3 : runPercent 1000 (percentCexSteps.take 3)
      = ⟨false, some 100, some 104, ⟨[(0, 500), (2, 990), (4, 991)]⟩,
         (⟨0, 991⟩, ⟨0, 991, 0, 0⟩)⟩ := by
    rw [e3, h2]
    norm_num [percentUpdateStatus, tickDue, reportDelta,
      cbUpdateDataProcessed, cbUpdateDataTotal, SpeedTest.addSample,
      SpeedTest.clear, uiRefreshSec, statusPercentDelaySec,
      statusPercentMinDurationSec, speedWindowSec, SpeedTest.getRemainingSec,
      SpeedTest.getBytesPerSec]
  have e4 : runPercent 1000 percentCexSteps
      = percentUpdateStatus 1000 (runPercent 1000 (percentCexSteps.take 3))
          0 1 113 := by
    simp [runPercent, percentCexSteps]
  have h4 : (runPercent 1000 percentCexSteps).showPercent = true := by
    rw [e4, h3]
    norm_num [percentUpdateStatus, tickDue, reportDelta,
      cbUpdateDataProcessed, cbUpdateDataTotal, SpeedTest.addSample,
      SpeedTest.clear, uiRefreshSec, statusPercentDelaySec,
      statusPercentMinDurationSec, speedWindowSec, SpeedTest.getRemainingSec,
      SpeedTest.getBytesPerSec]
  refine ⟨by rw [h1], ?_, ?_, ?_, ?_, by rw [h2], by rw [h3], h4⟩
  · rw [h1]
    norm_num [tickDue, uiRefreshSec]
  · norm_num [statusPercentDelaySec]
  · rw [h1]
    norm_num [SpeedTest.addSample, SpeedTest.clear, speedWindowSec,
      SpeedTest.getRemainingSec, SpeedTest.getBytesPerSec]
  · norm_num [statusPercentMinDurationSec]

/-- C5 (amended): `showPercent` is monotone — once on it stays on — and a
single `percentUpdateStatus` call switches it on exactly when
`percentLatchCond` holds: a due tick whose post-`DELAY` estimator query
reports remaining time above `MIN_DURATION`.  In particular an evaluation
whose estimate falls below `MIN_DURATION` merely leaves the display off at
that evaluation; it is not suppressed permanently — any later evaluation
whose estimate exceeds `MIN_DURATION` latches the display on. -/
theorem showPercentLatchCharacterization :
    ∀ (bytesExpected : ℤ) (st : PercentStatState) (itemsDelta bytesDelta : ℤ)
      (now : ℚ),
      (percentUpdateStatus bytesExpected st itemsDelta bytesDelta now).showPercent
        = (st.showPercent || percentLatchCond bytesExpected st itemsDelta bytesDelta now) := by
  intro be st i b now
  unfold percentUpdateStatus percentLatchCond
  rcases htick : tickDue st.lastUpdate now with _ | _
  · simp [htick]
  · simp only [htick, if_pos, Bool.true_and]
    rcases hshow : st.showPercent with _ | _
    · simp only [hshow, Bool.not_false, Bool.true_and]
      rcases hpos : decide
          (0 < (reportDelta 1 be st.statReporter (i, b)).1.bytesReported) with _ | _
      · simp [hpos]
      · simp only [hpos, Bool.and_true, Bool.true_and]
        rcases hstart : st.startTime with _ | t0
        · simp [hstart]
        · simp only [hstart]
          rcases hdelay : decide (statusPercentDelaySec ≤ now - t0) with _ | _
          · simp [hdelay]
          · simp only [hdelay, Bool.true_and]
            rcases hrem : ((st.speedTest.addSample (now - t0)
                (reportDelta 1 be st.statReporter (i, b)).1.bytesReported).getRemainingSec
                  (be - (reportDelta 1 be st.statReporter (i, b)).1.bytesReported))
              with _ | remSecs
            · simp [hrem]
            · simp only [hrem]
              rcases hmin : decide (statusPercentMinDurationSec < remSecs) with _ | _
              · simp [hmin]
              · simp [hmin]
    · simp [hshow]

end FFSpec
